import Mathlib

/-!
Verification development for the RIS-Live message decoder (`ris-live-rs`).

The core under verification is `parse_ris_live_message` in `src/lib.rs`
(lines 133-295), which turns one RIS-Live JSON message into a list of
`BgpElem` routing elements or a `ParserRisliveError`.

Shallow-embedding conventions:
* Rust `Result<T, E>` becomes `Except E T`; `Option<T>` becomes `Option T`.
* Machine integers (`u32`, `u16`, `u8`) become `Nat` with explicit range
  checks where the source checks them (integer parsing).
* The `f64` timestamp is copied through by the decoder and never
  interpreted; it is modelled as an opaque `Int`-coded value.
* External library parsers used by the source (`str::parse::<IpAddr>`,
  `str::parse::<u32>`, `str::parse::<NetworkPrefix>` from `bgp_models`,
  string `split`) are modelled as executable Lean functions following the
  documented semantics of those libraries.  The IPv6 textual model covers
  the uncompressed 8-group form only; compressed and v4-embedded forms are
  out of the modelled sublanguage (no claim depends on them).
* `serde_json` deserialization of the typed message structs is modelled by
  an explicit raw-input layer (`RawRisLive`), since it can fail (and that
  failure is caught at `lib.rs` lines 138-141).
-/

/-! ## String-parsing primitives (models of external library functions) -/

/-- Splits a character list at every occurrence of `c`, keeping empty
chunks, mirroring Rust's `str::split(c)`: the result always has one more
chunk than there are occurrences of `c`. -/
def splitOnChar (c : Char) : List Char → List (List Char)
  | [] => [[]]
  | x :: xs =>
    let r := splitOnChar c xs
    if x = c then [] :: r
    else
      match r with
      | [] => [[x]]
      | y :: ys => (x :: y) :: ys

/-- String version of `splitOnChar`, the model of Rust `str::split(c)`
followed by `collect::<Vec<&str>>()`. -/
def splitStr (c : Char) (s : String) : List String :=
  (splitOnChar c s.data).map (fun l => String.mk l)

/-- Value of a decimal digit list (most significant first); caller checks
that every character is a digit. -/
def digitsVal (l : List Char) : Nat :=
  l.foldl (fun a c => a * 10 + (c.toNat - 48)) 0

/-- Nonempty all-decimal-digit parse, the common core of Rust's unsigned
integer `from_str` implementations. -/
def parseNatDigits (l : List Char) : Option Nat :=
  if l ≠ [] ∧ l.all (fun c => c.isDigit) then some (digitsVal l) else none

/-- Models Rust `str::parse::<u32>()`: optional leading plus sign, at least
one decimal digit, value below 2^32 (overflow is a parse error). -/
def parse_u32 (s : String) : Option Nat :=
  let l := match s.data with
    | '+' :: rest => rest
    | l => l
  match parseNatDigits l with
  | some n => if n < 4294967296 then some n else none
  | none => none

/-- Models the IPv4 octet grammar of Rust `core::net`: one to three decimal
digits, no leading zero (unless the octet is exactly "0"), value at most
255. -/
def parseOctet (l : List Char) : Option Nat :=
  match parseNatDigits l with
  | some n =>
    if n ≤ 255 ∧ (l.length = 1 ∨ l.head? ≠ some '0') then some n else none
  | none => none

/-- IP addresses as produced by Rust `std::net::IpAddr`. -/
inductive IpAddr where
  | v4 (a b c d : Nat)
  | v6 (groups : List Nat)
deriving DecidableEq, Repr

/-- Option-valued traversal of a list, used to model fallible elementwise
parses (each element must succeed or the whole parse fails). -/
def optionTraverse (f : α → Option β) : List α → Option (List β)
  | [] => some []
  | x :: xs =>
    match f x, optionTraverse f xs with
    | some y, some ys => some (y :: ys)
    | _, _ => none

/-- Models Rust `Ipv4Addr::from_str`: exactly four dot-separated octets. -/
def parse_ipv4 (s : String) : Option IpAddr :=
  match optionTraverse parseOctet (splitOnChar '.' s.data) with
  | some [a, b, c, d] => some (.v4 a b c d)
  | _ => none

/-- Tests whether a character is an ASCII hexadecimal digit. -/
def isHexDigitChar (c : Char) : Bool :=
  c.isDigit || ('a' ≤ c && c ≤ 'f') || ('A' ≤ c && c ≤ 'F')

/-- Value of one hexadecimal digit character. -/
def hexDigitVal (c : Char) : Nat :=
  if c.isDigit then c.toNat - 48
  else if 'a' ≤ c ∧ c ≤ 'f' then c.toNat - 87
  else if 'A' ≤ c ∧ c ≤ 'F' then c.toNat - 55
  else 0

/-- One IPv6 group: one to four hexadecimal digits. -/
def parseHexGroup (l : List Char) : Option Nat :=
  if 0 < l.length ∧ l.length ≤ 4 ∧ l.all isHexDigitChar then
    some (l.foldl (fun a c => a * 16 + hexDigitVal c) 0)
  else none

/-- Models Rust `Ipv6Addr::from_str` restricted to the uncompressed
8-group colon-separated form (compressed and v4-embedded forms are outside
the modelled sublanguage; no claim depends on them). -/
def parse_ipv6 (s : String) : Option IpAddr :=
  let gs := splitOnChar ':' s.data
  if gs.length = 8 then
    match optionTraverse parseHexGroup gs with
    | some ns => some (.v6 ns)
    | none => none
  else none

/-- Models Rust `str::parse::<IpAddr>()`: IPv4 syntax first, then IPv6. -/
def parse_ip (s : String) : Option IpAddr :=
  match parse_ipv4 s with
  | some ip => some ip
  | none => parse_ipv6 s

/-- A network prefix as in the `bgp_models` crate: address, length, and a
path identifier that `FromStr` always sets to zero. -/
structure NetworkPrefix where
  addr : IpAddr
  len : Nat
  path_id : Nat
deriving DecidableEq, Repr

/-- Maximum prefix length for the address family, as enforced by the
`ipnet` crate used by `bgp_models`. -/
def maxPfxLen : IpAddr → Nat
  | .v4 _ _ _ _ => 32
  | .v6 _ => 128

/-- Models `str::parse::<NetworkPrefix>()` from `bgp_models` (built on
`ipnet::IpNet::from_str`): the text must be ADDRESS, a slash, and a
decimal prefix length within the family bound.  The sentinel literal
"eor" never parses (no slash). -/
def parseNetworkPrefix (s : String) : Option NetworkPrefix :=
  match splitStr '/' s with
  | [a, l] =>
    match parse_ip a with
    | some ip =>
      match parseNatDigits l.data with
      | some n => if n ≤ maxPfxLen ip then some ⟨ip, n, 0⟩ else none
      | none => none
    | none => none
  | _ => none

/-! ## Data model

Typed message structures.  The struct and enum declarations live in the
repository's `messages.rs`, which is not under `src/`; they are modelled
from the spec (section 3) and from how `src/lib.rs` consumes them. -/

/-- One element of the raw AS-path array: a bare integer (single-AS hop)
or a nested integer sequence (AS-SET segment).  Modelled from the spec:
the `PathSeg` type of `messages/ris_message.rs` is not under `src/`;
spec section 4.3 describes the wire encoding. -/
inductive PathSeg where
  | asn (a : Nat)
  | asSet (s : List Nat)
deriving DecidableEq, Repr

/-- One segment of a normalized AS path (`bgp_models::AsPathSegment`). -/
inductive AsPathSegment where
  | hop (a : Nat)
  | asSet (s : List Nat)
deriving DecidableEq, Repr

/-- Modelled from the spec: `path_to_as_path` of `messages/ris_message.rs`
is not under `src/`; per spec section 4.3 the normalization preserves the
input order of segments and, inside a set segment, the given member
order. -/
def path_to_as_path (p : List PathSeg) : List AsPathSegment :=
  p.map (fun s =>
    match s with
    | .asn a => .hop a
    | .asSet l => .asSet l)

/-- Route origin classification (`bgp_models::Origin`). -/
inductive Origin where
  | IGP
  | EGP
  | INCOMPLETE
deriving DecidableEq, Repr

/-- BGP community value; the decoder only ever builds the custom
`(asn, value)` form (`Community::Custom` in `bgp_models`). -/
inductive Community where
  | custom (asn : Nat) (value : Nat)
deriving DecidableEq, Repr

/-- Wrapper corresponding to `bgp_models::MetaCommunity::Community`. -/
inductive MetaCommunity where
  | community (c : Community)
deriving DecidableEq, Repr

/-- One announcement block of an update message.  Modelled from the spec
(section 3, `AnnouncementBlock`): next-hop text, announced prefix texts,
optional withdrawn prefix texts. -/
structure Announcement where
  next_hop : String
  prefixes : List String
  withdrawals : Option (List String)
deriving DecidableEq, Repr

/-- Fields of the `UPDATE` variant of `RisMessageEnum`, as destructured by
`src/lib.rs` lines 154-161.  The community entries are the typed pairs
that serde produced from `(u32, u16)` tuples (see the raw layer below for
the arity/range checks). -/
structure RisMessageUpdate where
  path : Option (List PathSeg)
  community : Option (List (Nat × Nat))
  origin : Option String
  med : Option Nat
  aggregator : Option String
  announcements : Option (List Announcement)
deriving DecidableEq, Repr

/-- Payload kinds of a `ris_message` envelope.  Modelled from the spec:
`RisMessageEnum` of `messages.rs` is not under `src/`; `src/lib.rs` only
destructures the `UPDATE` variant and sends every other variant through
the catch-all arm at line 290, so the non-update kinds are collapsed into
one constructor. -/
inductive RisMessageEnum where
  | UPDATE (u : RisMessageUpdate)
  | nonUpdate
deriving DecidableEq, Repr

/-- The `ris_message` body.  Modelled from the spec (section 3,
`UpdateBody`): the fields `src/lib.rs` reads are `timestamp`, `peer`,
`peer_asn` and `msg`; metadata fields it never touches (id, host) are
omitted.  The `f64` timestamp is opaque to the decoder and coded as an
`Int`. -/
structure RisMessage where
  timestamp : Int
  peer : String
  peer_asn : String
  msg : Option RisMessageEnum
deriving DecidableEq, Repr

/-- Top-level envelope.  Modelled from the spec: `RisLiveMessage` of
`messages.rs` is not under `src/`.  `src/lib.rs` matches the
`RisMessage` variant and sends everything else through the catch-all arm
at line 293; per spec sections 4.1 and 9 the non-`ris_message` kinds
(pong, error and rrc-list notifications, and future or unrecognized kind
values) all land there, collapsed here into one constructor. -/
inductive RisLiveMessage where
  | RisMessage (m : RisMessage)
  | otherKind
deriving DecidableEq, Repr

/-- Output routing element, mirroring `bgp_models::BgpElem` as constructed
at `src/lib.rs` lines 231-249 and 263-281. -/
inductive ElemType where
  | ANNOUNCE
  | WITHDRAW
deriving DecidableEq, Repr

/-- The flat output record; field list as in the source construction
sites (`src/lib.rs` lines 232-248). -/
structure BgpElem where
  timestamp : Int
  elem_type : ElemType
  peer_ip : IpAddr
  peer_asn : Nat
  pfx : NetworkPrefix
  next_hop : Option IpAddr
  as_path : Option (List AsPathSegment)
  origin_asns : Option (List Nat)
  origin : Option Origin
  local_pref : Option Nat
  med : Option Nat
  communities : Option (List MetaCommunity)
  atomic : Option Bool
  aggr_asn : Option Nat
  aggr_ip : Option IpAddr
deriving DecidableEq, Repr

/-- Error taxonomy.  Modelled from the spec (section 4.5): `error.rs` is
not under `src/`; the variants are exactly those `src/lib.rs`
constructs. -/
inductive ParserRisliveError where
  | IncorrectJson (msg : String)
  | ElemIncorrectPrefix (p : String)
  | ElemUnknownOriginType (o : String)
  | ElemIncorrectAggregator (a : String)
  | ElemEndOfRibPrefix
deriving DecidableEq, Repr

/-- Modelled from the spec: the section 4.5 taxonomy classes
`ElemUnknownOriginType`, `ElemIncorrectAggregator` and
`ElemIncorrectPrefix` as semantic errors; `IncorrectJson` is the
transport error carrying the original text, and `ElemEndOfRibPrefix` is
the end-of-table sentinel, distinct from both. -/
def isSemanticError : ParserRisliveError → Bool
  | .ElemUnknownOriginType _ => true
  | .ElemIncorrectAggregator _ => true
  | .ElemIncorrectPrefix _ => true
  | _ => false

/-! ## The decoder (`src/lib.rs` lines 133-295) -/

/-- The message-level shared attributes, computed once per update message
and copied onto every Announce element (`src/lib.rs` lines 162-209 bind
them before the announcement loop). -/
structure SharedCtx where
  timestamp : Int
  peer_ip : IpAddr
  peer_asn : Nat
  as_path : Option (List AsPathSegment)
  bgp_origin : Option Origin
  med : Option Nat
  communities : Option (List MetaCommunity)
  aggr_asn : Option Nat
  aggr_ip : Option IpAddr
deriving DecidableEq, Repr

/-- Community normalization, `src/lib.rs` lines 171-180: each typed
`(asn, value)` pair becomes `MetaCommunity::Community(Community::Custom)`
in input order; this step cannot fail. -/
def communitiesOf : Option (List (Nat × Nat)) → Option (List MetaCommunity)
  | none => none
  | some cs => some (cs.map (fun c => MetaCommunity.community (Community.custom c.1 c.2)))

/-- Origin normalization, `src/lib.rs` lines 183-195: the exact-match arms
are the two spellings "igp"/"IGP", "egp"/"EGP", "incomplete"/"INCOMPLETE";
any other token is returned inside `ElemUnknownOriginType`. -/
def normalizeOrigin : Option String → Except ParserRisliveError (Option Origin)
  | none => .ok none
  | some o =>
    if o = "igp" ∨ o = "IGP" then .ok (some .IGP)
    else if o = "egp" ∨ o = "EGP" then .ok (some .EGP)
    else if o = "incomplete" ∨ o = "INCOMPLETE" then .ok (some .INCOMPLETE)
    else .error (.ElemUnknownOriginType o)

/-- Aggregator normalization, `src/lib.rs` lines 198-209: split on every
colon; a part count other than two is `ElemIncorrectAggregator` carrying
the raw aggregator text; with exactly two parts, a failing ASN or IP parse
is `IncorrectJson` carrying the whole original message text. -/
def normalizeAggregator (msg_string : String) :
    Option String → Except ParserRisliveError (Option Nat × Option IpAddr)
  | none => .ok (none, none)
  | some aggr_str =>
    let parts := splitStr ':' aggr_str
    if parts.length ≠ 2 then .error (.ElemIncorrectAggregator aggr_str)
    else
      match parse_u32 (parts.getD 0 "") with
      | none => .error (.IncorrectJson msg_string)
      | some asn =>
        match parse_ip (parts.getD 1 "") with
        | none => .error (.IncorrectJson msg_string)
        | some ip => .ok (some asn, some ip)

/-- One Announce element, as pushed at `src/lib.rs` lines 231-249. -/
def announceElem (ctx : SharedCtx) (nexthop : IpAddr) (p : NetworkPrefix) : BgpElem :=
  { timestamp := ctx.timestamp
    elem_type := .ANNOUNCE
    peer_ip := ctx.peer_ip
    peer_asn := ctx.peer_asn
    pfx := p
    next_hop := some nexthop
    as_path := ctx.as_path
    origin_asns := none
    origin := ctx.bgp_origin
    local_pref := none
    med := ctx.med
    communities := ctx.communities
    atomic := none
    aggr_asn := ctx.aggr_asn
    aggr_ip := ctx.aggr_ip }

/-- One Withdraw element, as pushed at `src/lib.rs` lines 263-281: only
timestamp, peer and the prefix are filled, every attribute field is
`None`. -/
def withdrawElem (ctx : SharedCtx) (p : NetworkPrefix) : BgpElem :=
  { timestamp := ctx.timestamp
    elem_type := .WITHDRAW
    peer_ip := ctx.peer_ip
    peer_asn := ctx.peer_asn
    pfx := p
    next_hop := none
    as_path := none
    origin_asns := none
    origin := none
    local_pref := none
    med := none
    communities := none
    atomic := none
    aggr_asn := none
    aggr_ip := none }

/-- The loop over `announcement.prefixes`, `src/lib.rs` lines 220-250:
each literal must parse as a network prefix; on failure the literal "eor"
aborts with `ElemEndOfRibPrefix` and anything else with
`ElemIncorrectPrefix` naming the literal. -/
def parseAnnouncePrefixes (ctx : SharedCtx) (nexthop : IpAddr) :
    List String → Except ParserRisliveError (List BgpElem)
  | [] => .ok []
  | pfx :: rest =>
    match parseNetworkPrefix pfx with
    | some p =>
      match parseAnnouncePrefixes ctx nexthop rest with
      | .ok es => .ok (announceElem ctx nexthop p :: es)
      | .error e => .error e
    | none =>
      if pfx = "eor" then .error .ElemEndOfRibPrefix
      else .error (.ElemIncorrectPrefix pfx)

/-- The loop over `announcement.withdrawals`, `src/lib.rs` lines 252-284,
with the same end-of-RIB and bad-literal rules. -/
def parseWithdrawPrefixes (ctx : SharedCtx) :
    List String → Except ParserRisliveError (List BgpElem)
  | [] => .ok []
  | pfx :: rest =>
    match parseNetworkPrefix pfx with
    | some p =>
      match parseWithdrawPrefixes ctx rest with
      | .ok es => .ok (withdrawElem ctx p :: es)
      | .error e => .error e
    | none =>
      if pfx = "eor" then .error .ElemEndOfRibPrefix
      else .error (.ElemIncorrectPrefix pfx)

/-- The loop over announcement blocks, `src/lib.rs` lines 212-286: per
block the next-hop must parse as an IP address (failure is `IncorrectJson`
with the whole message text), then all announced prefixes are emitted,
then all withdrawn prefixes; blocks are processed in input order. -/
def parseAnnouncements (msg_string : String) (ctx : SharedCtx) :
    List Announcement → Except ParserRisliveError (List BgpElem)
  | [] => .ok []
  | ann :: rest =>
    match parse_ip ann.next_hop with
    | none => .error (.IncorrectJson msg_string)
    | some nexthop =>
      match parseAnnouncePrefixes ctx nexthop ann.prefixes with
      | .error e => .error e
      | .ok aes =>
        match parseWithdrawPrefixes ctx (ann.withdrawals.getD []) with
        | .error e => .error e
        | .ok wes =>
          match parseAnnouncements msg_string ctx rest with
          | .error e => .error e
          | .ok more => .ok (aes ++ wes ++ more)

/-- Builds the shared context from the normalized attributes, matching the
bindings at `src/lib.rs` lines 162-209. -/
def mkCtx (ts : Int) (pip : IpAddr) (pasn : Nat) (u : RisMessageUpdate)
    (og : Option Origin) (ag : Option Nat × Option IpAddr) : SharedCtx :=
  { timestamp := ts
    peer_ip := pip
    peer_asn := pasn
    as_path := u.path.map path_to_as_path
    bgp_origin := og
    med := u.med
    communities := communitiesOf u.community
    aggr_asn := ag.1
    aggr_ip := ag.2 }

/-- The `UPDATE` arm of `parse_ris_live_message`, `src/lib.rs` lines
154-289: mandatory peer scalars first (either failure is `IncorrectJson`
with the original text), then origin, then aggregator, then the
announcement loop; a message without an announcements field yields the
empty list. -/
def parse_update (msg_string : String) (ris_msg : RisMessage)
    (u : RisMessageUpdate) : Except ParserRisliveError (List BgpElem) :=
  match parse_ip ris_msg.peer with
  | none => .error (.IncorrectJson msg_string)
  | some peer_ip =>
    match parse_u32 ris_msg.peer_asn with
    | none => .error (.IncorrectJson msg_string)
    | some peer_asn =>
      match normalizeOrigin u.origin with
      | .error e => .error e
      | .ok bgp_origin =>
        match normalizeAggregator msg_string u.aggregator with
        | .error e => .error e
        | .ok bgp_aggregator =>
          match u.announcements with
          | none => .ok []
          | some anns =>
            parseAnnouncements msg_string
              (mkCtx ris_msg.timestamp peer_ip peer_asn u bgp_origin bgp_aggregator) anns

/-- Translation of `parse_ris_live_message` (`src/lib.rs` lines 133-295)
on an already-deserialized message.  `msg_string` is the original input
text, kept for the transport-error payloads.  A `ris_message` envelope
with no payload yields the empty list (line 150), a non-update payload
yields the empty list (line 290), and every other top-level kind yields
the empty list (line 293). -/
def parse_ris_live_message (msg : RisLiveMessage) (msg_string : String) :
    Except ParserRisliveError (List BgpElem) :=
  match msg with
  | .RisMessage ris_msg =>
    match ris_msg.msg with
    | none => .ok []
    | some (.UPDATE u) => parse_update msg_string ris_msg u
    | some .nonUpdate => .ok []
  | .otherKind => .ok []

/-! ## Raw input layer (the serde deserialization step)

`src/lib.rs` lines 138-141 run `serde_json::from_str` and turn any
deserialization failure into `IncorrectJson` carrying the original text.
The raw layer models the typed-deserialization outcomes the claims need:
the community field is declared as tuples `(u32, u16)` (forced by the
`c.0` / `c.1` accesses at lines 176), so a community entry that is not a
two-element in-range integer array makes the whole `from_str` call fail
before `parse_ris_live_message` sees a typed message. -/

/-- Update fields as they look before typed deserialization: community
entries are arbitrary integer arrays. -/
structure RawUpdate where
  path : Option (List PathSeg)
  community : Option (List (List Int))
  origin : Option String
  med : Option Nat
  aggregator : Option String
  announcements : Option (List Announcement)
deriving DecidableEq, Repr

/-- Payload kinds at the raw layer. -/
inductive RawMsgEnum where
  | UPDATE (u : RawUpdate)
  | nonUpdate
deriving DecidableEq, Repr

/-- Raw `ris_message` body. -/
structure RawRisMessage where
  timestamp : Int
  peer : String
  peer_asn : String
  msg : Option RawMsgEnum
deriving DecidableEq, Repr

/-- Raw input classes: text that does not deserialize at all (invalid
JSON or wrong envelope shape), a valid non-`ris_message` kind (including
unrecognized ones, spec sections 4.1 and 9), or a `ris_message`. -/
inductive RawRisLive where
  | notJson
  | otherKind
  | risMessage (m : RawRisMessage)
deriving DecidableEq, Repr

/-- Models serde deserialization of one Rust `(u32, u16)` tuple from a
JSON integer array: exactly two elements, each within its type's range. -/
def deserCommunityEntry : List Int → Option (Nat × Nat)
  | [a, b] =>
    if 0 ≤ a ∧ a < 4294967296 ∧ 0 ≤ b ∧ b < 65536 then
      some (a.toNat, b.toNat)
    else none
  | _ => none

/-- Typed deserialization of the update fields; only the community field
can fail. -/
def deserUpdate (r : RawUpdate) : Option RisMessageUpdate :=
  match r.community with
  | none =>
    some { path := r.path, community := none, origin := r.origin,
           med := r.med, aggregator := r.aggregator,
           announcements := r.announcements }
  | some cs =>
    match optionTraverse deserCommunityEntry cs with
    | none => none
    | some cs' =>
      some { path := r.path, community := some cs', origin := r.origin,
             med := r.med, aggregator := r.aggregator,
             announcements := r.announcements }

/-- Typed deserialization of the whole input, `serde_json::from_str` at
`src/lib.rs` line 138. -/
def deserRisLive : RawRisLive → Option RisLiveMessage
  | .notJson => none
  | .otherKind => some .otherKind
  | .risMessage m =>
    match m.msg with
    | none =>
      some (.RisMessage { timestamp := m.timestamp, peer := m.peer,
                          peer_asn := m.peer_asn, msg := none })
    | some .nonUpdate =>
      some (.RisMessage { timestamp := m.timestamp, peer := m.peer,
                          peer_asn := m.peer_asn, msg := some .nonUpdate })
    | some (.UPDATE ru) =>
      match deserUpdate ru with
      | none => none
      | some u =>
        some (.RisMessage { timestamp := m.timestamp, peer := m.peer,
                            peer_asn := m.peer_asn, msg := some (.UPDATE u) })

/-- Full pipeline from raw input, `src/lib.rs` lines 133-295: the serde
step first (failure is `IncorrectJson` with the original text), then the
typed decoder. -/
def parse_ris_live_raw (raw : RawRisLive) (msg_string : String) :
    Except ParserRisliveError (List BgpElem) :=
  match deserRisLive raw with
  | none => .error (.IncorrectJson msg_string)
  | some m => parse_ris_live_message m msg_string

/-! ## Expansion model and validity predicates

Total restatements of the loops, used to phrase what the decoder emits on
success, plus decidable validity predicates naming every failure site. -/

/-- The elements one block contributes on success: all its Announce
elements in prefix order, then all its Withdraw elements in withdrawal
order. -/
def blockElems (ctx : SharedCtx) (ann : Announcement) : List BgpElem :=
  match parse_ip ann.next_hop with
  | none => []
  | some nh =>
    ann.prefixes.filterMap (fun s => (parseNetworkPrefix s).map (announceElem ctx nh))
      ++ (ann.withdrawals.getD []).filterMap (fun s => (parseNetworkPrefix s).map (withdrawElem ctx))

/-- Per-block expansion concatenated in block input order. -/
def expandBlocks (ctx : SharedCtx) : List Announcement → List BgpElem
  | [] => []
  | ann :: rest => blockElems ctx ann ++ expandBlocks ctx rest

/-- A prefix literal the decoder accepts. -/
def pfxOk (s : String) : Bool :=
  (parseNetworkPrefix s).isSome

/-- A block every part of which the decoder accepts. -/
def annValid (ann : Announcement) : Bool :=
  (parse_ip ann.next_hop).isSome && ann.prefixes.all pfxOk
    && (ann.withdrawals.getD []).all pfxOk

/-- An origin field the decoder accepts (absent, or one of the six
spellings matched at `src/lib.rs` lines 186-189). -/
def originOk : Option String → Bool
  | none => true
  | some o =>
    decide (o = "igp" ∨ o = "IGP" ∨ o = "egp" ∨ o = "EGP"
      ∨ o = "incomplete" ∨ o = "INCOMPLETE")

/-- An aggregator field the decoder accepts (absent, or exactly two colon
parts with a parsing ASN and IP). -/
def aggrOk : Option String → Bool
  | none => true
  | some t =>
    match splitStr ':' t with
    | [s1, s2] => (parse_u32 s1).isSome && (parse_ip s2).isSome
    | _ => false

/-- Everything the decoder checks about one update message: the mandatory
peer scalars, the present shared attributes, and every block. -/
def updateValid (peerS asnS : String) (u : RisMessageUpdate) : Bool :=
  (parse_ip peerS).isSome && (parse_u32 asnS).isSome
    && originOk u.origin && aggrOk u.aggregator
    && (u.announcements.getD []).all annValid

/-- Total element count a block list promises: announced plus withdrawn
prefixes per block. -/
def blockCount (anns : List Announcement) : Nat :=
  (anns.map (fun a => a.prefixes.length + (a.withdrawals.getD []).length)).sum

/-! ## Concrete fixtures used by the witnesses and counterexamples -/

/-- Update body of the section-8 style fixture: AS path, origin "igp",
two announcement blocks, the second with two withdrawals. -/
def fixtureUpd : RisMessageUpdate :=
  { path := some [.asn 58299, .asn 49981, .asn 397666]
    community := none
    origin := some "igp"
    med := none
    aggregator := none
    announcements := some
      [ { next_hop := "10.0.0.1", prefixes := ["192.0.2.0/24"], withdrawals := none },
        { next_hop := "10.0.0.2", prefixes := ["192.0.2.0/24"],
          withdrawals := some ["198.51.100.0/24", "203.0.113.0/24"] } ] }

/-- The fixture as a full message. -/
def fixtureMsg : RisLiveMessage :=
  .RisMessage { timestamp := 0, peer := "1.2.3.4", peer_asn := "58299",
                msg := some (.UPDATE fixtureUpd) }

/-- Shared context the decoder builds for the fixture. -/
def fixtureCtx : SharedCtx :=
  { timestamp := 0
    peer_ip := .v4 1 2 3 4
    peer_asn := 58299
    as_path := some [.hop 58299, .hop 49981, .hop 397666]
    bgp_origin := some .IGP
    med := none
    communities := none
    aggr_asn := none
    aggr_ip := none }

/-- The four elements the fixture decodes to, in emission order. -/
def fixtureElems : List BgpElem :=
  [ announceElem fixtureCtx (.v4 10 0 0 1) ⟨.v4 192 0 2 0, 24, 0⟩,
    announceElem fixtureCtx (.v4 10 0 0 2) ⟨.v4 192 0 2 0, 24, 0⟩,
    withdrawElem fixtureCtx ⟨.v4 198 51 100 0, 24, 0⟩,
    withdrawElem fixtureCtx ⟨.v4 203 0 113 0, 24, 0⟩ ]

/-- An update whose second prefix literal does not parse. -/
def invalidPfxUpd : RisMessageUpdate :=
  { path := none, community := none, origin := none, med := none,
    aggregator := none,
    announcements := some
      [ { next_hop := "10.0.0.1", prefixes := ["192.0.2.0/24", "bad"],
          withdrawals := none } ] }

/-- An update with no optional fields at all. -/
def emptyUpd : RisMessageUpdate :=
  { path := none, community := none, origin := none, med := none,
    aggregator := none, announcements := none }

/-- An update that reaches an "eor" literal after one valid prefix. -/
def eorUpd : RisMessageUpdate :=
  { path := none, community := none, origin := none, med := none,
    aggregator := none,
    announcements := some
      [ { next_hop := "10.0.0.1", prefixes := ["192.0.2.0/24", "eor"],
          withdrawals := none } ] }

/-- A message carrying an "eor" literal preceded by a malformed prefix
literal. -/
def badThenEorMsg : RisLiveMessage :=
  .RisMessage { timestamp := 0, peer := "1.2.3.4", peer_asn := "65000",
                msg := some (.UPDATE
      { path := none, community := none, origin := none, med := none,
        aggregator := none,
        announcements := some
          [ { next_hop := "10.0.0.1", prefixes := ["bad", "eor"],
              withdrawals := none } ] }) }

/-- A one-announcement message parameterized by the origin token. -/
def originMsg (o : String) : RisLiveMessage :=
  .RisMessage { timestamp := 0, peer := "1.2.3.4", peer_asn := "65000",
                msg := some (.UPDATE
      { path := none, community := none, origin := some o, med := none,
        aggregator := none,
        announcements := some
          [ { next_hop := "10.0.0.1", prefixes := ["192.0.2.0/24"],
              withdrawals := none } ] }) }

/-- The single element `originMsg` decodes to when the origin token is
accepted with normalized value `og`. -/
def originMsgElem (og : Option Origin) : BgpElem :=
  announceElem
    { timestamp := 0, peer_ip := .v4 1 2 3 4, peer_asn := 65000,
      as_path := none, bgp_origin := og, med := none, communities := none,
      aggr_asn := none, aggr_ip := none }
    (.v4 10 0 0 1) ⟨.v4 192 0 2 0, 24, 0⟩

/-- A one-announcement message parameterized by the aggregator field. -/
def aggrMsg (a : Option String) : RisLiveMessage :=
  .RisMessage { timestamp := 0, peer := "1.2.3.4", peer_asn := "65000",
                msg := some (.UPDATE
      { path := none, community := none, origin := none, med := none,
        aggregator := a,
        announcements := some
          [ { next_hop := "10.0.0.1", prefixes := ["192.0.2.0/24"],
              withdrawals := none } ] }) }

/-- The single element `aggrMsg` decodes to when the aggregator
normalizes to `ag`. -/
def aggrMsgElem (ag : Option Nat × Option IpAddr) : BgpElem :=
  announceElem
    { timestamp := 0, peer_ip := .v4 1 2 3 4, peer_asn := 65000,
      as_path := none, bgp_origin := none, med := none, communities := none,
      aggr_asn := ag.1, aggr_ip := ag.2 }
    (.v4 10 0 0 1) ⟨.v4 192 0 2 0, 24, 0⟩

/-- A raw update whose community field holds a three-element tuple. -/
def badCommunityUpd : RawUpdate :=
  { path := none, community := some [[1, 2, 3]], origin := none,
    med := none, aggregator := none, announcements := none }

/-- The raw message around `badCommunityUpd`. -/
def badCommunityRaw : RawRisLive :=
  .risMessage { timestamp := 0, peer := "1.2.3.4", peer_asn := "65000",
                msg := some (.UPDATE badCommunityUpd) }

/-! ## Helper lemmas -/

theorem length_filterMap_of_all_pfxOk (f : NetworkPrefix → BgpElem) :
    ∀ ps : List String, ps.all pfxOk = true →
      (ps.filterMap (fun s => (parseNetworkPrefix s).map f)).length = ps.length := by
  intro ps
  induction ps with
  | nil => intro _; rfl
  | cons p rest ih =>
    intro h
    simp only [List.all_cons, Bool.and_eq_true] at h
    obtain ⟨h1, h2⟩ := h
    unfold pfxOk at h1
    cases hp : parseNetworkPrefix p with
    | none => rw [hp] at h1; simp at h1
    | some v => simp [List.filterMap_cons, hp, ih h2]

theorem parseAnnouncePrefixes_ok (ctx : SharedCtx) (nh : IpAddr) :
    ∀ (ps : List String) (es : List BgpElem),
      parseAnnouncePrefixes ctx nh ps = .ok es →
      ps.all pfxOk = true ∧
        es = ps.filterMap (fun s => (parseNetworkPrefix s).map (announceElem ctx nh)) := by
  intro ps
  induction ps with
  | nil =>
    intro es h
    simp only [parseAnnouncePrefixes] at h
    cases h
    exact ⟨rfl, rfl⟩
  | cons p rest ih =>
    intro es h
    simp only [parseAnnouncePrefixes] at h
    cases hp : parseNetworkPrefix p with
    | none =>
      rw [hp] at h
      by_cases he : p = "eor" <;> simp [he] at h
    | some v =>
      rw [hp] at h
      cases hr : parseAnnouncePrefixes ctx nh rest with
      | error e => rw [hr] at h; cases h
      | ok es' =>
        rw [hr] at h
        cases h
        obtain ⟨ha, hb⟩ := ih es' hr
        refine ⟨?_, ?_⟩
        · simp [List.all_cons, pfxOk, hp, ha]
        · simp [List.filterMap_cons, hp, hb]

theorem parseAnnouncePrefixes_of_valid (ctx : SharedCtx) (nh : IpAddr) :
    ∀ ps : List String, ps.all pfxOk = true →
      parseAnnouncePrefixes ctx nh ps =
        .ok (ps.filterMap (fun s => (parseNetworkPrefix s).map (announceElem ctx nh))) := by
  intro ps
  induction ps with
  | nil => intro _; rfl
  | cons p rest ih =>
    intro h
    simp only [List.all_cons, Bool.and_eq_true] at h
    obtain ⟨h1, h2⟩ := h
    unfold pfxOk at h1
    cases hp : parseNetworkPrefix p with
    | none => rw [hp] at h1; simp at h1
    | some v =>
      simp only [parseAnnouncePrefixes, hp, ih h2, List.filterMap_cons]
      rfl

theorem parseWithdrawPrefixes_ok (ctx : SharedCtx) :
    ∀ (ps : List String) (es : List BgpElem),
      parseWithdrawPrefixes ctx ps = .ok es →
      ps.all pfxOk = true ∧
        es = ps.filterMap (fun s => (parseNetworkPrefix s).map (withdrawElem ctx)) := by
  intro ps
  induction ps with
  | nil =>
    intro es h
    simp only [parseWithdrawPrefixes] at h
    cases h
    exact ⟨rfl, rfl⟩
  | cons p rest ih =>
    intro es h
    simp only [parseWithdrawPrefixes] at h
    cases hp : parseNetworkPrefix p with
    | none =>
      rw [hp] at h
      by_cases he : p = "eor" <;> simp [he] at h
    | some v =>
      rw [hp] at h
      cases hr : parseWithdrawPrefixes ctx rest with
      | error e => rw [hr] at h; cases h
      | ok es' =>
        rw [hr] at h
        cases h
        obtain ⟨ha, hb⟩ := ih es' hr
        refine ⟨?_, ?_⟩
        · simp [List.all_cons, pfxOk, hp, ha]
        · simp [List.filterMap_cons, hp, hb]

theorem parseWithdrawPrefixes_of_valid (ctx : SharedCtx) :
    ∀ ps : List String, ps.all pfxOk = true →
      parseWithdrawPrefixes ctx ps =
        .ok (ps.filterMap (fun s => (parseNetworkPrefix s).map (withdrawElem ctx))) := by
  intro ps
  induction ps with
  | nil => intro _; rfl
  | cons p rest ih =>
    intro h
    simp only [List.all_cons, Bool.and_eq_true] at h
    obtain ⟨h1, h2⟩ := h
    unfold pfxOk at h1
    cases hp : parseNetworkPrefix p with
    | none => rw [hp] at h1; simp at h1
    | some v =>
      simp only [parseWithdrawPrefixes, hp, ih h2, List.filterMap_cons]
      rfl

theorem parseAnnouncements_ok (s : String) (ctx : SharedCtx) :
    ∀ (anns : List Announcement) (es : List BgpElem),
      parseAnnouncements s ctx anns = .ok es →
      anns.all annValid = true ∧ es = expandBlocks ctx anns := by
  intro anns
  induction anns with
  | nil =>
    intro es h
    simp only [parseAnnouncements] at h
    cases h
    exact ⟨rfl, rfl⟩
  | cons ann rest ih =>
    intro es h
    simp only [parseAnnouncements] at h
    cases hn : parse_ip ann.next_hop with
    | none => simp only [hn] at h; exact Except.noConfusion h
    | some nh =>
      simp only [hn] at h
      cases ha : parseAnnouncePrefixes ctx nh ann.prefixes with
      | error e => simp only [ha] at h; exact Except.noConfusion h
      | ok aes =>
        simp only [ha] at h
        cases hw : parseWithdrawPrefixes ctx (ann.withdrawals.getD []) with
        | error e => simp only [hw] at h; exact Except.noConfusion h
        | ok wes =>
          simp only [hw] at h
          cases hr : parseAnnouncements s ctx rest with
          | error e => simp only [hr] at h; exact Except.noConfusion h
          | ok more =>
            simp only [hr] at h
            cases h
            obtain ⟨hv1, he1⟩ := parseAnnouncePrefixes_ok ctx nh ann.prefixes aes ha
            obtain ⟨hv2, he2⟩ := parseWithdrawPrefixes_ok ctx (ann.withdrawals.getD []) wes hw
            obtain ⟨hv3, he3⟩ := ih more hr
            refine ⟨?_, ?_⟩
            · simp [List.all_cons, annValid, hn, hv1, hv2, hv3]
            · simp only [expandBlocks, blockElems, hn, he1, he2, he3, List.append_assoc]

theorem parseAnnouncements_of_valid (s : String) (ctx : SharedCtx) :
    ∀ anns : List Announcement, anns.all annValid = true →
      parseAnnouncements s ctx anns = .ok (expandBlocks ctx anns) := by
  intro anns
  induction anns with
  | nil => intro _; rfl
  | cons ann rest ih =>
    intro h
    simp only [List.all_cons, Bool.and_eq_true] at h
    obtain ⟨h1, h2⟩ := h
    unfold annValid at h1
    simp only [Bool.and_eq_true] at h1
    obtain ⟨⟨hn', hp'⟩, hw'⟩ := h1
    cases hn : parse_ip ann.next_hop with
    | none => rw [hn] at hn'; simp at hn'
    | some nh =>
      simp only [parseAnnouncements, hn, parseAnnouncePrefixes_of_valid ctx nh ann.prefixes hp',
        parseWithdrawPrefixes_of_valid ctx (ann.withdrawals.getD []) hw', ih h2]
      simp only [expandBlocks, blockElems, hn, List.append_assoc]

theorem blockElems_length (ctx : SharedCtx) (ann : Announcement)
    (h : annValid ann = true) :
    (blockElems ctx ann).length = ann.prefixes.length + (ann.withdrawals.getD []).length := by
  unfold annValid at h
  simp only [Bool.and_eq_true] at h
  obtain ⟨⟨hn', hp'⟩, hw'⟩ := h
  cases hn : parse_ip ann.next_hop with
  | none => rw [hn] at hn'; simp at hn'
  | some nh =>
    simp only [blockElems, hn, List.length_append,
      length_filterMap_of_all_pfxOk _ ann.prefixes hp',
      length_filterMap_of_all_pfxOk _ (ann.withdrawals.getD []) hw']

theorem expandBlocks_length (ctx : SharedCtx) :
    ∀ anns : List Announcement, anns.all annValid = true →
      (expandBlocks ctx anns).length = blockCount anns := by
  intro anns
  induction anns with
  | nil => intro _; rfl
  | cons ann rest ih =>
    intro h
    simp only [List.all_cons, Bool.and_eq_true] at h
    obtain ⟨h1, h2⟩ := h
    simp only [expandBlocks, List.length_append, blockElems_length ctx ann h1, ih h2,
      blockCount, List.map_cons, List.sum_cons]

theorem mem_expandBlocks (ctx : SharedCtx) :
    ∀ (anns : List Announcement) (e : BgpElem), e ∈ expandBlocks ctx anns →
      ∃ ann, ann ∈ anns ∧ e ∈ blockElems ctx ann := by
  intro anns
  induction anns with
  | nil => intro e h; simp [expandBlocks] at h
  | cons ann rest ih =>
    intro e h
    simp only [expandBlocks, List.mem_append] at h
    cases h with
    | inl h => exact ⟨ann, List.mem_cons_self ann rest, h⟩
    | inr h =>
      obtain ⟨a, ha, he⟩ := ih e h
      exact ⟨a, List.mem_cons_of_mem ann ha, he⟩

theorem normalizeOrigin_ok_originOk :
    ∀ (o : Option String) (og : Option Origin),
      normalizeOrigin o = .ok og → originOk o = true := by
  intro o og h
  cases o with
  | none => rfl
  | some t =>
    simp only [normalizeOrigin] at h
    by_cases h1 : t = "igp" ∨ t = "IGP"
    · simp [originOk, h1.elim Or.inl (fun x => Or.inr (Or.inl x))]
    · by_cases h2 : t = "egp" ∨ t = "EGP"
      · simp only [originOk, decide_eq_true_eq]
        exact h2.elim (fun x => Or.inr (Or.inr (Or.inl x)))
          (fun x => Or.inr (Or.inr (Or.inr (Or.inl x))))
      · by_cases h3 : t = "incomplete" ∨ t = "INCOMPLETE"
        · simp only [originOk, decide_eq_true_eq]
          exact h3.elim (fun x => Or.inr (Or.inr (Or.inr (Or.inr (Or.inl x)))))
            (fun x => Or.inr (Or.inr (Or.inr (Or.inr (Or.inr x)))))
        · simp only [h1, h2, h3, if_false] at h
          exact Except.noConfusion h

theorem normalizeOrigin_error_of_not_originOk :
    ∀ o : String, originOk (some o) = false →
      normalizeOrigin (some o) = .error (.ElemUnknownOriginType o) := by
  intro o h
  simp only [originOk, decide_eq_false_iff_not] at h
  push_neg at h
  obtain ⟨h1, h2, h3, h4, h5, h6⟩ := h
  simp only [normalizeOrigin, h1, h2, h3, h4, h5, h6, or_self, if_false]

theorem normalizeAggregator_ok_aggrOk :
    ∀ (s : String) (a : Option String) (ag : Option Nat × Option IpAddr),
      normalizeAggregator s a = .ok ag → aggrOk a = true := by
  intro s a ag h
  cases a with
  | none => rfl
  | some t =>
    simp only [normalizeAggregator] at h
    cases hp : splitStr ':' t with
    | nil =>
      rw [hp, if_pos (by simp)] at h
      exact Except.noConfusion h
    | cons x xs =>
      cases xs with
      | nil =>
        rw [hp, if_pos (by simp)] at h
        exact Except.noConfusion h
      | cons y ys =>
        cases ys with
        | cons z zs =>
          rw [hp, if_pos (by simp only [List.length_cons]; omega)] at h
          exact Except.noConfusion h
        | nil =>
          rw [hp, if_neg (by simp)] at h
          simp only [List.getD_cons_zero, List.getD_cons_succ] at h
          cases hu : parse_u32 x with
          | none => simp [hu] at h
          | some n =>
            simp only [hu] at h
            cases hip : parse_ip y with
            | none => simp [hip] at h
            | some ip =>
              simp only [aggrOk, hp, hu, hip, Option.isSome_some, Bool.and_self]

theorem parse_update_ok_shape :
    ∀ (s : String) (m : RisMessage) (u : RisMessageUpdate) (es : List BgpElem),
      m.msg = some (.UPDATE u) →
      parse_update s m u = .ok es →
      ∃ pip pasn og ag,
        parse_ip m.peer = some pip ∧ parse_u32 m.peer_asn = some pasn ∧
        normalizeOrigin u.origin = .ok og ∧
        normalizeAggregator s u.aggregator = .ok ag ∧
        (u.announcements.getD []).all annValid = true ∧
        es = expandBlocks (mkCtx m.timestamp pip pasn u og ag) (u.announcements.getD []) := by
  intro s m u es _ h
  simp only [parse_update] at h
  cases hip : parse_ip m.peer with
  | none => simp only [hip] at h; exact Except.noConfusion h
  | some pip =>
    simp only [hip] at h
    cases hasn : parse_u32 m.peer_asn with
    | none => simp only [hasn] at h; exact Except.noConfusion h
    | some pasn =>
      simp only [hasn] at h
      cases hog : normalizeOrigin u.origin with
      | error e => simp only [hog] at h; exact Except.noConfusion h
      | ok og =>
        simp only [hog] at h
        cases hag : normalizeAggregator s u.aggregator with
        | error e => simp only [hag] at h; exact Except.noConfusion h
        | ok ag =>
          simp only [hag] at h
          refine ⟨pip, pasn, og, ag, rfl, rfl, rfl, rfl, ?_⟩
          cases hann : u.announcements with
          | none =>
            simp only [hann] at h
            cases h
            exact ⟨rfl, rfl⟩
          | some anns =>
            simp only [hann] at h
            obtain ⟨hv, he⟩ := parseAnnouncements_ok s _ anns es h
            exact ⟨hv, he⟩

theorem parse_update_ok_updateValid :
    ∀ (s : String) (m : RisMessage) (u : RisMessageUpdate) (es : List BgpElem),
      m.msg = some (.UPDATE u) →
      parse_update s m u = .ok es →
      updateValid m.peer m.peer_asn u = true := by
  intro s m u es hm h
  obtain ⟨pip, pasn, og, ag, h1, h2, h3, h4, h5, _⟩ :=
    parse_update_ok_shape s m u es hm h
  simp only [updateValid, h1, h2, Option.isSome_some, Bool.true_and,
    normalizeOrigin_ok_originOk u.origin og h3,
    normalizeAggregator_ok_aggrOk s u.aggregator ag h4, h5, Bool.and_self]

theorem optionTraverse_none_of_mem (f : α → Option β) :
    ∀ (l : List α) (x : α), x ∈ l → f x = none → optionTraverse f l = none := by
  intro l
  induction l with
  | nil => intro x hx; exact absurd hx (List.not_mem_nil x)
  | cons a rest ih =>
    intro x hx hf
    cases List.mem_cons.mp hx with
    | inl h =>
      subst h
      simp only [optionTraverse, hf]
    | inr h =>
      simp only [optionTraverse, ih x h hf]
      cases f a <;> rfl

theorem parseAnnouncements_append_of_valid (s : String) (ctx : SharedCtx) :
    ∀ (pre post : List Announcement), pre.all annValid = true →
      parseAnnouncements s ctx (pre ++ post) =
        match parseAnnouncements s ctx post with
        | .ok es => .ok (expandBlocks ctx pre ++ es)
        | .error e => .error e := by
  intro pre
  induction pre with
  | nil =>
    intro post _
    simp only [List.nil_append, expandBlocks]
    cases parseAnnouncements s ctx post <;> simp
  | cons ann rest ih =>
    intro post h
    simp only [List.all_cons, Bool.and_eq_true] at h
    obtain ⟨h1, h2⟩ := h
    have h1' := h1
    unfold annValid at h1'
    simp only [Bool.and_eq_true] at h1'
    obtain ⟨⟨hn', hp'⟩, hw'⟩ := h1'
    cases hn : parse_ip ann.next_hop with
    | none => rw [hn] at hn'; simp at hn'
    | some nh =>
      simp only [List.cons_append, parseAnnouncements, hn,
        parseAnnouncePrefixes_of_valid ctx nh ann.prefixes hp',
        parseWithdrawPrefixes_of_valid ctx (ann.withdrawals.getD []) hw',
        List.append_eq, ih post h2]
      cases parseAnnouncements s ctx post with
      | error e => rfl
      | ok es =>
        simp only [expandBlocks, blockElems, hn, List.append_assoc]

theorem parseNetworkPrefix_eor : parseNetworkPrefix "eor" = none := by
  rfl

theorem parseAnnouncePrefixes_eor (ctx : SharedCtx) (nh : IpAddr) :
    ∀ (ps1 ps2 : List String), ps1.all pfxOk = true →
      parseAnnouncePrefixes ctx nh (ps1 ++ "eor" :: ps2) = .error .ElemEndOfRibPrefix := by
  intro ps1
  induction ps1 with
  | nil =>
    intro ps2 _
    simp only [List.nil_append, parseAnnouncePrefixes, parseNetworkPrefix_eor]
    rfl
  | cons p rest ih =>
    intro ps2 h
    simp only [List.all_cons, Bool.and_eq_true] at h
    obtain ⟨h1, h2⟩ := h
    unfold pfxOk at h1
    cases hp : parseNetworkPrefix p with
    | none => rw [hp] at h1; simp at h1
    | some v =>
      simp only [List.cons_append, parseAnnouncePrefixes, hp, List.append_eq, ih ps2 h2]

theorem parseWithdrawPrefixes_eor (ctx : SharedCtx) :
    ∀ (ps1 ps2 : List String), ps1.all pfxOk = true →
      parseWithdrawPrefixes ctx (ps1 ++ "eor" :: ps2) = .error .ElemEndOfRibPrefix := by
  intro ps1
  induction ps1 with
  | nil =>
    intro ps2 _
    simp only [List.nil_append, parseWithdrawPrefixes, parseNetworkPrefix_eor]
    rfl
  | cons p rest ih =>
    intro ps2 h
    simp only [List.all_cons, Bool.and_eq_true] at h
    obtain ⟨h1, h2⟩ := h
    unfold pfxOk at h1
    cases hp : parseNetworkPrefix p with
    | none => rw [hp] at h1; simp at h1
    | some v =>
      simp only [List.cons_append, parseWithdrawPrefixes, hp, List.append_eq, ih ps2 h2]

theorem parseAnnouncePrefixes_error_ne_eor (ctx : SharedCtx) (nh : IpAddr) :
    ∀ (ps : List String) (v : String),
      parseAnnouncePrefixes ctx nh ps = .error (.ElemIncorrectPrefix v) → v ≠ "eor" := by
  intro ps
  induction ps with
  | nil => intro v h; exact absurd h (by simp [parseAnnouncePrefixes])
  | cons p rest ih =>
    intro v h
    simp only [parseAnnouncePrefixes] at h
    cases hp : parseNetworkPrefix p with
    | some w =>
      simp only [hp] at h
      cases hr : parseAnnouncePrefixes ctx nh rest with
      | error e =>
        simp only [hr] at h
        cases h
        exact ih v hr
      | ok es => simp only [hr] at h; exact Except.noConfusion h
    | none =>
      simp only [hp] at h
      by_cases he : p = "eor"
      · rw [if_pos he] at h
        cases h
      · rw [if_neg he] at h
        cases h
        exact he

theorem parseWithdrawPrefixes_error_ne_eor (ctx : SharedCtx) :
    ∀ (ps : List String) (v : String),
      parseWithdrawPrefixes ctx ps = .error (.ElemIncorrectPrefix v) → v ≠ "eor" := by
  intro ps
  induction ps with
  | nil => intro v h; exact absurd h (by simp [parseWithdrawPrefixes])
  | cons p rest ih =>
    intro v h
    simp only [parseWithdrawPrefixes] at h
    cases hp : parseNetworkPrefix p with
    | some w =>
      simp only [hp] at h
      cases hr : parseWithdrawPrefixes ctx rest with
      | error e =>
        simp only [hr] at h
        cases h
        exact ih v hr
      | ok es => simp only [hr] at h; exact Except.noConfusion h
    | none =>
      simp only [hp] at h
      by_cases he : p = "eor"
      · rw [if_pos he] at h
        cases h
      · rw [if_neg he] at h
        cases h
        exact he

theorem parseAnnouncements_error_ne_eor (s : String) (ctx : SharedCtx) :
    ∀ (anns : List Announcement) (v : String),
      parseAnnouncements s ctx anns = .error (.ElemIncorrectPrefix v) → v ≠ "eor" := by
  intro anns
  induction anns with
  | nil => intro v h; exact absurd h (by simp [parseAnnouncements])
  | cons ann rest ih =>
    intro v h
    simp only [parseAnnouncements] at h
    cases hn : parse_ip ann.next_hop with
    | none => simp only [hn] at h; cases h
    | some nh =>
      simp only [hn] at h
      cases ha : parseAnnouncePrefixes ctx nh ann.prefixes with
      | error e =>
        simp only [ha] at h
        cases h
        exact parseAnnouncePrefixes_error_ne_eor ctx nh ann.prefixes v ha
      | ok aes =>
        simp only [ha] at h
        cases hw : parseWithdrawPrefixes ctx (ann.withdrawals.getD []) with
        | error e =>
          simp only [hw] at h
          cases h
          exact parseWithdrawPrefixes_error_ne_eor ctx (ann.withdrawals.getD []) v hw
        | ok wes =>
          simp only [hw] at h
          cases hr : parseAnnouncements s ctx rest with
          | error e =>
            simp only [hr] at h
            cases h
            exact ih v hr
          | ok more => simp only [hr] at h; exact Except.noConfusion h

theorem normalizeOrigin_error_shape :
    ∀ (o : Option String) (e : ParserRisliveError),
      normalizeOrigin o = .error e → ∃ t, e = .ElemUnknownOriginType t := by
  intro o e h
  cases o with
  | none => exact absurd h (by simp [normalizeOrigin])
  | some t =>
    simp only [normalizeOrigin] at h
    by_cases h1 : t = "igp" ∨ t = "IGP"
    · rw [if_pos h1] at h; exact Except.noConfusion h
    · rw [if_neg h1] at h
      by_cases h2 : t = "egp" ∨ t = "EGP"
      · rw [if_pos h2] at h; exact Except.noConfusion h
      · rw [if_neg h2] at h
        by_cases h3 : t = "incomplete" ∨ t = "INCOMPLETE"
        · rw [if_pos h3] at h; exact Except.noConfusion h
        · rw [if_neg h3] at h
          cases h
          exact ⟨t, rfl⟩

theorem normalizeAggregator_error_shape :
    ∀ (s : String) (a : Option String) (e : ParserRisliveError),
      normalizeAggregator s a = .error e →
      (∃ t, e = .ElemIncorrectAggregator t) ∨ e = .IncorrectJson s := by
  intro s a e h
  cases a with
  | none => exact absurd h (by simp [normalizeAggregator])
  | some t =>
    simp only [normalizeAggregator] at h
    by_cases hl : (splitStr ':' t).length ≠ 2
    · rw [if_pos hl] at h
      cases h
      exact Or.inl ⟨t, rfl⟩
    · rw [if_neg hl] at h
      cases hu : parse_u32 ((splitStr ':' t).getD 0 "") with
      | none =>
        simp only [hu] at h
        cases h
        exact Or.inr rfl
      | some n =>
        simp only [hu] at h
        cases hip : parse_ip ((splitStr ':' t).getD 1 "") with
        | none =>
          simp only [hip] at h
          cases h
          exact Or.inr rfl
        | some ip => simp only [hip] at h; exact Except.noConfusion h

theorem parse_update_error_ne_eor :
    ∀ (s : String) (m : RisMessage) (u : RisMessageUpdate) (v : String),
      parse_update s m u = .error (.ElemIncorrectPrefix v) → v ≠ "eor" := by
  intro s m u v h
  simp only [parse_update] at h
  cases hip : parse_ip m.peer with
  | none => simp only [hip] at h; cases h
  | some pip =>
    simp only [hip] at h
    cases hasn : parse_u32 m.peer_asn with
    | none => simp only [hasn] at h; cases h
    | some pasn =>
      simp only [hasn] at h
      cases hog : normalizeOrigin u.origin with
      | error e =>
        simp only [hog] at h
        cases h
        obtain ⟨t, ht⟩ := normalizeOrigin_error_shape u.origin _ hog
        exact absurd ht (by simp)
      | ok og =>
        simp only [hog] at h
        cases hag : normalizeAggregator s u.aggregator with
        | error e =>
          simp only [hag] at h
          cases h
          cases normalizeAggregator_error_shape s u.aggregator _ hag with
          | inl h' => obtain ⟨t, ht⟩ := h'; exact absurd ht (by simp)
          | inr h' => exact absurd h' (by simp)
        | ok ag =>
          simp only [hag] at h
          cases hann : u.announcements with
          | none => simp only [hann] at h; exact Except.noConfusion h
          | some anns =>
            simp only [hann] at h
            exact parseAnnouncements_error_ne_eor s _ anns v h

theorem parse_ris_live_message_error_ne_eor :
    ∀ (msg : RisLiveMessage) (s : String) (v : String),
      parse_ris_live_message msg s = .error (.ElemIncorrectPrefix v) → v ≠ "eor" := by
  intro msg s v h
  cases msg with
  | otherKind => exact absurd h (by simp [parse_ris_live_message])
  | RisMessage m =>
    simp only [parse_ris_live_message] at h
    cases hm : m.msg with
    | none => simp only [hm] at h; exact Except.noConfusion h
    | some k =>
      cases k with
      | nonUpdate => simp only [hm] at h; exact Except.noConfusion h
      | UPDATE u =>
        simp only [hm] at h
        exact parse_update_error_ne_eor s m u v h

theorem normalizeOrigin_ok_of_originOk :
    ∀ o : Option String, originOk o = true → ∃ og, normalizeOrigin o = .ok og := by
  intro o h
  cases o with
  | none => exact ⟨none, rfl⟩
  | some t =>
    simp only [originOk, decide_eq_true_eq] at h
    rcases h with h | h | h | h | h | h <;> subst h
    · exact ⟨some .IGP, rfl⟩
    · exact ⟨some .IGP, rfl⟩
    · exact ⟨some .EGP, rfl⟩
    · exact ⟨some .EGP, rfl⟩
    · exact ⟨some .INCOMPLETE, rfl⟩
    · exact ⟨some .INCOMPLETE, rfl⟩

theorem deserCommunityEntry_none_of_arity :
    ∀ c : List Int, c.length ≠ 2 → deserCommunityEntry c = none := by
  intro c h
  match c with
  | [] => rfl
  | [a] => rfl
  | [a, b] => exact absurd rfl h
  | a :: b :: x :: t => rfl

/-! ## Claim theorems -/

/-- Claim C1: for every update message that decodes successfully, with
announcement blocks having announced-prefix counts P_i and withdrawn
counts W_i, the decoder returns exactly the sum of all P_i and W_i
elements, ordered block by block in input order, each block contributing
all its Announce elements in prefix order followed by all its Withdraw
elements in withdrawal order (the per-block shape is `blockElems`, the
whole output `expandBlocks`). -/
theorem c1_count_and_order :
    ∀ (ts : Int) (peerS asnS s : String) (u : RisMessageUpdate) (es : List BgpElem),
      parse_ris_live_message (.RisMessage ⟨ts, peerS, asnS, some (.UPDATE u)⟩) s = .ok es →
      es.length = blockCount (u.announcements.getD []) ∧
      ∃ pip pasn og ag,
        parse_ip peerS = some pip ∧ parse_u32 asnS = some pasn ∧
        normalizeOrigin u.origin = .ok og ∧
        normalizeAggregator s u.aggregator = .ok ag ∧
        es = expandBlocks (mkCtx ts pip pasn u og ag) (u.announcements.getD []) := by
  intro ts peerS asnS s u es h
  simp only [parse_ris_live_message] at h
  obtain ⟨pip, pasn, og, ag, h1, h2, h3, h4, h5, h6⟩ :=
    parse_update_ok_shape s ⟨ts, peerS, asnS, some (.UPDATE u)⟩ u es rfl h
  refine ⟨?_, pip, pasn, og, ag, h1, h2, h3, h4, h6⟩
  rw [h6]
  exact expandBlocks_length _ _ h5

/-- Witness for C1 at the concrete two-block fixture: four elements, in
the specified order. -/
theorem c1_witness :
    fixtureElems.length = blockCount (fixtureUpd.announcements.getD []) ∧
    ∃ pip pasn og ag,
      parse_ip "1.2.3.4" = some pip ∧ parse_u32 "58299" = some pasn ∧
      normalizeOrigin fixtureUpd.origin = .ok og ∧
      normalizeAggregator "m" fixtureUpd.aggregator = .ok ag ∧
      fixtureElems = expandBlocks (mkCtx 0 pip pasn fixtureUpd og ag)
        (fixtureUpd.announcements.getD []) :=
  c1_count_and_order 0 "1.2.3.4" "58299" "m" fixtureUpd fixtureElems (by rfl)

/-- Claim C2: decode is atomic per input message.  A message with any
failing part (peer scalars, origin, aggregator, any block's next-hop or
any prefix literal — `updateValid` enumerates every check the decoder
performs) yields an error, which carries zero elements: the partially
built list is discarded.  Conversely an element list is only ever
returned for a fully valid message, and undeserializable input text is an
`IncorrectJson` error, again with zero elements. -/
theorem c2_atomic :
    (∀ (ts : Int) (peerS asnS s : String) (u : RisMessageUpdate),
      updateValid peerS asnS u = false →
      ∃ e, parse_ris_live_message (.RisMessage ⟨ts, peerS, asnS, some (.UPDATE u)⟩) s =
        .error e) ∧
    (∀ (ts : Int) (peerS asnS s : String) (u : RisMessageUpdate) (es : List BgpElem),
      parse_ris_live_message (.RisMessage ⟨ts, peerS, asnS, some (.UPDATE u)⟩) s = .ok es →
      updateValid peerS asnS u = true) ∧
    (∀ s : String, parse_ris_live_raw .notJson s = .error (.IncorrectJson s)) := by
  refine ⟨?_, ?_, ?_⟩
  · intro ts peerS asnS s u h
    cases hres : parse_ris_live_message (.RisMessage ⟨ts, peerS, asnS, some (.UPDATE u)⟩) s with
    | error e => exact ⟨e, rfl⟩
    | ok es =>
      have hv := parse_update_ok_updateValid s ⟨ts, peerS, asnS, some (.UPDATE u)⟩ u es rfl
        (by simpa only [parse_ris_live_message] using hres)
      rw [hv] at h
      exact Bool.noConfusion h
  · intro ts peerS asnS s u es h
    exact parse_update_ok_updateValid s ⟨ts, peerS, asnS, some (.UPDATE u)⟩ u es rfl
      (by simpa only [parse_ris_live_message] using h)
  · intro s
    rfl

/-- Witness for C2: a message whose second prefix literal fails after one
element was already constructible is rejected whole. -/
theorem c2_witness :
    ∃ e, parse_ris_live_message
      (.RisMessage ⟨0, "1.2.3.4", "65000", some (.UPDATE invalidPfxUpd)⟩) "m" = .error e :=
  c2_atomic.1 0 "1.2.3.4" "65000" "m" invalidPfxUpd (by rfl)

/-- Claim C3: in every successfully decoded message, every Withdraw
element carries no next-hop, AS path, origin, MED, communities or
aggregator fields, regardless of which shared attributes the message
carried. -/
theorem c3_withdraw_no_attrs :
    ∀ (msg : RisLiveMessage) (s : String) (es : List BgpElem),
      parse_ris_live_message msg s = .ok es →
      ∀ e ∈ es, e.elem_type = .WITHDRAW →
        e.next_hop = none ∧ e.as_path = none ∧ e.origin = none ∧ e.med = none ∧
        e.communities = none ∧ e.aggr_asn = none ∧ e.aggr_ip = none := by
  intro msg s es h e he hw
  cases msg with
  | otherKind =>
    simp only [parse_ris_live_message] at h
    cases h
    exact absurd he (List.not_mem_nil e)
  | RisMessage m =>
    simp only [parse_ris_live_message] at h
    cases hm : m.msg with
    | none =>
      simp only [hm] at h
      cases h
      exact absurd he (List.not_mem_nil e)
    | some k =>
      cases k with
      | nonUpdate =>
        simp only [hm] at h
        cases h
        exact absurd he (List.not_mem_nil e)
      | UPDATE u =>
        simp only [hm] at h
        obtain ⟨pip, pasn, og, ag, _, _, _, _, _, hes⟩ :=
          parse_update_ok_shape s m u es hm h
        subst hes
        obtain ⟨ann, _, hbe⟩ := mem_expandBlocks _ _ e he
        unfold blockElems at hbe
        cases hn : parse_ip ann.next_hop with
        | none => rw [hn] at hbe; exact absurd hbe (List.not_mem_nil e)
        | some nh =>
          rw [hn] at hbe
          cases List.mem_append.mp hbe with
          | inl ha =>
            obtain ⟨p, _, hp⟩ := List.mem_filterMap.mp ha
            cases hpp : parseNetworkPrefix p with
            | none => rw [hpp] at hp; exact Option.noConfusion hp
            | some v =>
              rw [hpp] at hp
              cases hp
              exact absurd hw (by simp [announceElem])
          | inr hb =>
            obtain ⟨p, _, hp⟩ := List.mem_filterMap.mp hb
            cases hpp : parseNetworkPrefix p with
            | none => rw [hpp] at hp; exact Option.noConfusion hp
            | some v =>
              rw [hpp] at hp
              cases hp
              exact ⟨rfl, rfl, rfl, rfl, rfl, rfl, rfl⟩

/-- Witness for C3: the first withdrawn element of the fixture has every
attribute field absent. -/
theorem c3_witness :
    (withdrawElem fixtureCtx ⟨.v4 198 51 100 0, 24, 0⟩).next_hop = none ∧
    (withdrawElem fixtureCtx ⟨.v4 198 51 100 0, 24, 0⟩).as_path = none ∧
    (withdrawElem fixtureCtx ⟨.v4 198 51 100 0, 24, 0⟩).origin = none ∧
    (withdrawElem fixtureCtx ⟨.v4 198 51 100 0, 24, 0⟩).med = none ∧
    (withdrawElem fixtureCtx ⟨.v4 198 51 100 0, 24, 0⟩).communities = none ∧
    (withdrawElem fixtureCtx ⟨.v4 198 51 100 0, 24, 0⟩).aggr_asn = none ∧
    (withdrawElem fixtureCtx ⟨.v4 198 51 100 0, 24, 0⟩).aggr_ip = none :=
  c3_withdraw_no_attrs fixtureMsg "m" fixtureElems (by rfl)
    (withdrawElem fixtureCtx ⟨.v4 198 51 100 0, 24, 0⟩) (by decide) (by rfl)

/-- Claim C7: an update message whose peer field does not parse as an IP
address, or whose peer_asn field does not parse as an unsigned 32-bit
integer, decodes to the transport error `IncorrectJson` carrying the
original message text, with zero elements. -/
theorem c7_peer_transport_error :
    ∀ (ts : Int) (peerS asnS s : String) (u : RisMessageUpdate),
      parse_ip peerS = none ∨ parse_u32 asnS = none →
      parse_ris_live_message (.RisMessage ⟨ts, peerS, asnS, some (.UPDATE u)⟩) s =
        .error (.IncorrectJson s) := by
  intro ts peerS asnS s u h
  simp only [parse_ris_live_message, parse_update]
  cases h with
  | inl h => simp only [h]
  | inr h =>
    cases hip : parse_ip peerS with
    | none => rfl
    | some pip => simp only [h]

/-- Witness for C7 at the spec's own example input, peer_asn
"not-a-number". -/
theorem c7_witness :
    parse_ris_live_message
      (.RisMessage ⟨0, "1.2.3.4", "not-a-number", some (.UPDATE emptyUpd)⟩) "m" =
      .error (.IncorrectJson "m") :=
  c7_peer_transport_error 0 "1.2.3.4" "not-a-number" "m" emptyUpd (Or.inr (by rfl))

/-- Claim C8: the envelope decoder never fails on the message kind
itself: a non-`ris_message` top-level kind (recognized or unrecognized),
a `ris_message` envelope with no payload, and a `ris_message` with a
non-update payload all decode successfully to the empty element list. -/
theorem c8_non_update_empty :
    ∀ (raw : RawRisLive) (s : String),
      (raw = .otherKind ∨
        ∃ m, raw = .risMessage m ∧ (m.msg = none ∨ m.msg = some .nonUpdate)) →
      parse_ris_live_raw raw s = .ok [] := by
  intro raw s h
  cases h with
  | inl h => subst h; rfl
  | inr h =>
    obtain ⟨m, hm, hk⟩ := h
    subst hm
    cases hk with
    | inl h' => simp only [parse_ris_live_raw, deserRisLive, h', parse_ris_live_message]
    | inr h' => simp only [parse_ris_live_raw, deserRisLive, h', parse_ris_live_message]

/-- Witness for C8 at a non-`ris_message` kind. -/
theorem c8_witness : parse_ris_live_raw .otherKind "x" = .ok [] :=
  c8_non_update_empty .otherKind "x" (Or.inl rfl)

/-- Claim C10: shared-attribute normalization precedes element expansion.
With valid peer scalars, an invalid origin token yields its semantic
error, and a malformed aggregator yields its error, whatever the
announcements field holds — including no blocks at all; a successful
empty list is never returned while a present attribute violates its
grammar. -/
theorem c10_attrs_checked_before_blocks :
    ∀ (ts : Int) (peerS asnS s : String) (u : RisMessageUpdate) (pip : IpAddr) (pasn : Nat),
      parse_ip peerS = some pip → parse_u32 asnS = some pasn →
      (∀ o, u.origin = some o → originOk (some o) = false →
        parse_ris_live_message (.RisMessage ⟨ts, peerS, asnS, some (.UPDATE u)⟩) s =
          .error (.ElemUnknownOriginType o)) ∧
      (∀ t, originOk u.origin = true → u.aggregator = some t →
        (splitStr ':' t).length ≠ 2 →
        parse_ris_live_message (.RisMessage ⟨ts, peerS, asnS, some (.UPDATE u)⟩) s =
          .error (.ElemIncorrectAggregator t)) ∧
      (∀ t s1 s2, originOk u.origin = true → u.aggregator = some t →
        splitStr ':' t = [s1, s2] → (parse_u32 s1 = none ∨ parse_ip s2 = none) →
        parse_ris_live_message (.RisMessage ⟨ts, peerS, asnS, some (.UPDATE u)⟩) s =
          .error (.IncorrectJson s)) := by
  intro ts peerS asnS s u pip pasn hip hasn
  refine ⟨?_, ?_, ?_⟩
  · intro o ho hbad
    simp only [parse_ris_live_message, parse_update, hip, hasn, ho,
      normalizeOrigin_error_of_not_originOk o hbad]
  · intro t hog ht hlen
    obtain ⟨og, hogr⟩ := normalizeOrigin_ok_of_originOk u.origin hog
    simp only [parse_ris_live_message, parse_update, hip, hasn, hogr, ht,
      normalizeAggregator]
    rw [if_pos hlen]
  · intro t s1 s2 hog ht hsplit hfail
    obtain ⟨og, hogr⟩ := normalizeOrigin_ok_of_originOk u.origin hog
    simp only [parse_ris_live_message, parse_update, hip, hasn, hogr, ht,
      normalizeAggregator, hsplit]
    rw [if_neg (by simp)]
    simp only [List.getD_cons_zero, List.getD_cons_succ]
    cases hu : parse_u32 s1 with
    | none => rfl
    | some n =>
      cases hfail with
      | inl h' => rw [h'] at hu; exact Option.noConfusion hu
      | inr h' => simp only [h']

/-- Witness for C10: an invalid origin token is rejected even though the
message has no announcement blocks. -/
theorem c10_witness :
    parse_ris_live_message
      (.RisMessage ⟨0, "1.2.3.4", "65000",
        some (.UPDATE { path := none, community := none, origin := some "weird",
                        med := none, aggregator := none, announcements := none })⟩) "m" =
      .error (.ElemUnknownOriginType "weird") :=
  (c10_attrs_checked_before_blocks 0 "1.2.3.4" "65000" "m"
      { path := none, community := none, origin := some "weird", med := none,
        aggregator := none, announcements := none }
      (.v4 1 2 3 4) 65000 (by rfl) (by rfl)).1 "weird" rfl (by rfl)

/-- Counterexample to C4 as stated: a message containing the prefix
literal "eor" for which the decoder does not return the end-of-RIB
outcome, because a malformed literal earlier in the same block aborts the
message first. -/
theorem c4_counterexample :
    parse_ris_live_message badThenEorMsg "m" = .error (.ElemIncorrectPrefix "bad") ∧
    ParserRisliveError.ElemIncorrectPrefix "bad" ≠ .ElemEndOfRibPrefix :=
  ⟨rfl, by decide⟩

/-- Claim C4, amended: the "eor" literal itself never produces a
SemanticError (a returned `ElemIncorrectPrefix` never names "eor"), and
whenever decode actually reaches an "eor" literal — the peer scalars and
shared attributes are valid, every earlier block fully expands, the
block's next-hop parses and every literal before the "eor" parses — the
result is the `ElemEndOfRibPrefix` outcome with zero elements. -/
theorem c4_eor_amended :
    (∀ (msg : RisLiveMessage) (s v : String),
      parse_ris_live_message msg s = .error (.ElemIncorrectPrefix v) → v ≠ "eor") ∧
    (∀ (ts : Int) (peerS asnS s : String) (u : RisMessageUpdate) (pip nh : IpAddr)
        (pasn : Nat) (og : Option Origin) (ag : Option Nat × Option IpAddr)
        (pre : List Announcement) (blk : Announcement) (rest : List Announcement),
      parse_ip peerS = some pip → parse_u32 asnS = some pasn →
      normalizeOrigin u.origin = .ok og →
      normalizeAggregator s u.aggregator = .ok ag →
      u.announcements = some (pre ++ blk :: rest) →
      pre.all annValid = true →
      parse_ip blk.next_hop = some nh →
      ((∃ ps1 ps2, blk.prefixes = ps1 ++ "eor" :: ps2 ∧ ps1.all pfxOk = true) ∨
        (blk.prefixes.all pfxOk = true ∧
          ∃ ws1 ws2, blk.withdrawals.getD [] = ws1 ++ "eor" :: ws2 ∧
            ws1.all pfxOk = true)) →
      parse_ris_live_message (.RisMessage ⟨ts, peerS, asnS, some (.UPDATE u)⟩) s =
        .error .ElemEndOfRibPrefix) := by
  constructor
  · exact parse_ris_live_message_error_ne_eor
  · intro ts peerS asnS s u pip nh pasn og ag pre blk rest hip hasn hog hag hann hpre hnh hw
    simp only [parse_ris_live_message, parse_update, hip, hasn, hog, hag, hann]
    rw [parseAnnouncements_append_of_valid s _ pre (blk :: rest) hpre]
    have hblk : parseAnnouncements s (mkCtx ts pip pasn u og ag) (blk :: rest) =
        .error .ElemEndOfRibPrefix := by
      simp only [parseAnnouncements, hnh]
      cases hw with
      | inl h' =>
        obtain ⟨ps1, ps2, hps, hv⟩ := h'
        rw [hps, parseAnnouncePrefixes_eor _ nh ps1 ps2 hv]
      | inr h' =>
        obtain ⟨hpv, ws1, ws2, hws, hv⟩ := h'
        rw [parseAnnouncePrefixes_of_valid _ nh blk.prefixes hpv]
        rw [hws, parseWithdrawPrefixes_eor _ ws1 ws2 hv]
    rw [hblk]

/-- Witness for the amended C4: a reached "eor" literal yields the
end-of-RIB outcome. -/
theorem c4_witness :
    parse_ris_live_message (.RisMessage ⟨0, "1.2.3.4", "65000", some (.UPDATE eorUpd)⟩) "m" =
      .error .ElemEndOfRibPrefix :=
  c4_eor_amended.2 0 "1.2.3.4" "65000" "m" eorUpd (.v4 1 2 3 4) (.v4 10 0 0 1)
    65000 none (none, none) []
    { next_hop := "10.0.0.1", prefixes := ["192.0.2.0/24", "eor"], withdrawals := none } []
    (by rfl) (by rfl) (by rfl) (by rfl) (by rfl) (by rfl) (by rfl)
    (Or.inl ⟨["192.0.2.0/24"], [], rfl, by rfl⟩)

/-- Counterexample to C5 as stated: "Igp" equals "igp" ignoring letter
case, yet the decoder rejects it with the semantic error naming the
token instead of mapping it to the IGP origin. -/
theorem c5_counterexample :
    parse_ris_live_message (originMsg "Igp") "m" =
      .error (.ElemUnknownOriginType "Igp") ∧
    "Igp".data.map Char.toLower = "igp".data :=
  ⟨rfl, rfl⟩

/-- Claim C5, amended: origin matching accepts exactly the all-lowercase
and all-uppercase spellings of igp, egp and incomplete, mapping each to
the corresponding origin value; every other token — including mixed-case
spellings — yields `ElemUnknownOriginType` naming that token, with no
fallback applied. -/
theorem c5_origin_amended :
    ∀ o : String,
      ((o = "igp" ∨ o = "IGP") →
        parse_ris_live_message (originMsg o) "m" = .ok [originMsgElem (some .IGP)]) ∧
      ((o = "egp" ∨ o = "EGP") →
        parse_ris_live_message (originMsg o) "m" = .ok [originMsgElem (some .EGP)]) ∧
      ((o = "incomplete" ∨ o = "INCOMPLETE") →
        parse_ris_live_message (originMsg o) "m" = .ok [originMsgElem (some .INCOMPLETE)]) ∧
      (originOk (some o) = false →
        parse_ris_live_message (originMsg o) "m" = .error (.ElemUnknownOriginType o)) := by
  intro o
  refine ⟨?_, ?_, ?_, ?_⟩
  · rintro (rfl | rfl) <;> rfl
  · rintro (rfl | rfl) <;> rfl
  · rintro (rfl | rfl) <;> rfl
  · intro h
    simp only [originMsg, parse_ris_live_message, parse_update,
      show parse_ip "1.2.3.4" = some (IpAddr.v4 1 2 3 4) from rfl,
      show parse_u32 "65000" = some 65000 from rfl,
      normalizeOrigin_error_of_not_originOk o h]

/-- Witness for the amended C5: the uppercase spelling "EGP" is accepted
and normalized to the EGP origin on the emitted element. -/
theorem c5_witness :
    parse_ris_live_message (originMsg "EGP") "m" = .ok [originMsgElem (some .EGP)] :=
  (c5_origin_amended "EGP").2.1 (Or.inr rfl)

/-- Counterexample to C6 as stated: the aggregator text "a:b" does not
satisfy the success grammar, yet the decoder reports `IncorrectJson`
carrying the whole message text — a transport error, not a SemanticError
carrying the raw aggregator text. -/
theorem c6_counterexample :
    parse_ris_live_message (aggrMsg (some "a:b")) "m" = .error (.IncorrectJson "m") ∧
    isSemanticError (.IncorrectJson "m") = false ∧
    ParserRisliveError.IncorrectJson "m" ≠ .ElemIncorrectAggregator "a:b" :=
  ⟨rfl, rfl, by decide⟩

/-- Claim C6, amended: decode succeeds with aggregator ASN and IP exactly
when the aggregator text splits on every colon into exactly two parts
with part 1 parsing as a 32-bit ASN and part 2 as an IP address; a part
count other than two yields the SemanticError `ElemIncorrectAggregator`
carrying the raw text; exactly two parts with an unparseable ASN or IP
yield the transport error `IncorrectJson` carrying the whole message
text; an absent aggregator yields no aggregator attributes and no
error. -/
theorem c6_aggregator_amended :
    ∀ (t s1 s2 : String) (n : Nat) (ip : IpAddr),
      (parse_ris_live_message (aggrMsg none) "m" = .ok [aggrMsgElem (none, none)]) ∧
      (splitStr ':' t = [s1, s2] → parse_u32 s1 = some n → parse_ip s2 = some ip →
        parse_ris_live_message (aggrMsg (some t)) "m" =
          .ok [aggrMsgElem (some n, some ip)]) ∧
      ((splitStr ':' t).length ≠ 2 →
        parse_ris_live_message (aggrMsg (some t)) "m" =
          .error (.ElemIncorrectAggregator t)) ∧
      (splitStr ':' t = [s1, s2] → (parse_u32 s1 = none ∨ parse_ip s2 = none) →
        parse_ris_live_message (aggrMsg (some t)) "m" = .error (.IncorrectJson "m")) := by
  intro t s1 s2 n ip
  refine ⟨by rfl, ?_, ?_, ?_⟩
  · intro hsplit hu hip
    simp only [aggrMsg, parse_ris_live_message, parse_update,
      show parse_ip "1.2.3.4" = some (IpAddr.v4 1 2 3 4) from rfl,
      show parse_u32 "65000" = some 65000 from rfl,
      show normalizeOrigin none = .ok none from rfl,
      normalizeAggregator, hsplit]
    rw [if_neg (by simp)]
    simp only [List.getD_cons_zero, List.getD_cons_succ, hu, hip]
    rfl
  · intro hlen
    simp only [aggrMsg, parse_ris_live_message, parse_update,
      show parse_ip "1.2.3.4" = some (IpAddr.v4 1 2 3 4) from rfl,
      show parse_u32 "65000" = some 65000 from rfl,
      show normalizeOrigin none = .ok none from rfl,
      normalizeAggregator]
    rw [if_pos hlen]
  · intro hsplit hfail
    simp only [aggrMsg, parse_ris_live_message, parse_update,
      show parse_ip "1.2.3.4" = some (IpAddr.v4 1 2 3 4) from rfl,
      show parse_u32 "65000" = some 65000 from rfl,
      show normalizeOrigin none = .ok none from rfl,
      normalizeAggregator, hsplit]
    rw [if_neg (by simp)]
    simp only [List.getD_cons_zero, List.getD_cons_succ]
    cases hu : parse_u32 s1 with
    | none => rfl
    | some m =>
      cases hfail with
      | inl h' => rw [h'] at hu; exact Option.noConfusion hu
      | inr h' => simp only [h']

/-- Witness for the amended C6 at the spec's example aggregator text. -/
theorem c6_witness :
    parse_ris_live_message (aggrMsg (some "65000:8.42.232.1")) "m" =
      .ok [aggrMsgElem (some 65000, some (.v4 8 42 232 1))] :=
  (c6_aggregator_amended "65000:8.42.232.1" "65000" "8.42.232.1" 65000
    (.v4 8 42 232 1)).2.1 (by rfl) (by rfl) (by rfl)

/-- Counterexample to C9 as stated: a community entry of arity three makes
decode fail, but with the transport error `IncorrectJson` (the serde
deserialization of the `(u32, u16)` tuple fails and is caught at
`src/lib.rs` lines 138-141), not with a SemanticError. -/
theorem c9_counterexample :
    parse_ris_live_raw badCommunityRaw "t" = .error (.IncorrectJson "t") ∧
    isSemanticError (.IncorrectJson "t") = false :=
  ⟨rfl, rfl⟩

/-- Claim C9, amended: every typed 2-element community tuple becomes one
custom community preserving order; a community entry that is not a
two-element tuple makes the whole message's deserialization fail, so
decode returns the transport error `IncorrectJson` carrying the message
text (not a SemanticError). -/
theorem c9_community_amended :
    (∀ cs : List (Nat × Nat),
      communitiesOf (some cs) =
        some (cs.map (fun c => MetaCommunity.community (Community.custom c.1 c.2)))) ∧
    (∀ (ts : Int) (peerS asnS s : String) (ru : RawUpdate)
        (rcs : List (List Int)) (c : List Int),
      ru.community = some rcs → c ∈ rcs → c.length ≠ 2 →
      parse_ris_live_raw (.risMessage ⟨ts, peerS, asnS, some (.UPDATE ru)⟩) s =
        .error (.IncorrectJson s)) := by
  constructor
  · intro cs
    rfl
  · intro ts peerS asnS s ru rcs c hcs hmem hlen
    have htr : optionTraverse deserCommunityEntry rcs = none :=
      optionTraverse_none_of_mem deserCommunityEntry rcs c hmem
        (deserCommunityEntry_none_of_arity c hlen)
    simp only [parse_ris_live_raw, deserRisLive, deserUpdate, hcs, htr]

/-- Witness for the amended C9 at the concrete arity-three entry. -/
theorem c9_witness :
    parse_ris_live_raw
      (.risMessage ⟨0, "1.2.3.4", "65000", some (.UPDATE badCommunityUpd)⟩) "u" =
      .error (.IncorrectJson "u") :=
  c9_community_amended.2 0 "1.2.3.4" "65000" "u" badCommunityUpd
    [[1, 2, 3]] [1, 2, 3] rfl (by decide) (by decide)
